import Mathlib

/-!
Verification of the retention-sweeper specification against `src/main.rs` of
discord-retention-bot.

The Rust program is shallowly embedded: pure functions (`parse_channel_retention`,
`filter_messages`) become Lean functions on `List Char` / `Int`; the effectful
parts (`main`'s loop, `process_guild`, `process_channel`) become functions over
explicit collaborator results (`Except`-valued service calls), returning the
log of observable effects.  `chrono::Duration` is modelled as an `Int` number of
seconds (`Duration::days n = 86400 * n`, `Duration::weeks n = 604800 * n`);
timestamps (`chrono::DateTime<Utc>`) are modelled as `Int` instants, with
`now.signed_duration_since ts = now - ts`.
-/

namespace RetentionBot

/-- A Discord message, as the fields of `serenity::model::channel::Message`
used or carried by the program: `id` (a `u64` surrogate key, monotonically
increasing with creation time), `timestamp`, and the `pinned` flag (present on
the wire model; `main.rs` never reads it). -/
structure Message where
  id : Nat
  timestamp : Int
  pinned : Bool
deriving Repr, DecidableEq

/-- A guild (`serenity::model::guild::GuildInfo`): id and name. -/
structure Guild where
  id : Nat
  name : List Char
deriving Repr, DecidableEq

/-- A guild channel (`serenity::model::channel::GuildChannel`): id and name. -/
structure Channel where
  id : Nat
  name : List Char
deriving Repr, DecidableEq

/-- The error taxonomy of the deletion/transport collaborator, plus the two
configuration errors defined in the crate's `errors` module
(`InvalidChannelConfigError`, `InvalidDurationError`) and Rust's
`std::num::ParseIntError`, which `parse_channel_retention` propagates through
`?` from `str::parse::<i64>`. -/
inductive SweepError where
  | notFound
  | rateLimited
  | forbidden
  | transport
  | invalidChannelConfig
  | invalidDuration
  | parseIntError
deriving Repr, DecidableEq

/-- `chrono::Duration::days n`, in seconds. -/
def durationDays (n : Int) : Int := 86400 * n

/-- `chrono::Duration::weeks n`, in seconds. -/
def durationWeeks (n : Int) : Int := 604800 * n

/-- `filter_messages` from `main.rs` lines 129–136: keep exactly the messages
with `now.signed_duration_since(msg.timestamp) > max_age` and return their ids,
in order.  (`now` is taken as an explicit argument; the Rust reads `Utc::now()`
once at the top of the function.) -/
def filter_messages (messages : List Message) (max_age : Int) (now : Int) : List Nat :=
  (messages.filter (fun msg => max_age < now - msg.timestamp)).map (fun msg => msg.id)

/-- Rust's `str::split(sep)` on a single-character separator, over `List Char`:
splits at every occurrence of `sep`; the result is never empty, and splitting
the empty string yields `[[]]`, exactly as in Rust. -/
def splitOnChar (sep : Char) : List Char → List (List Char)
  | [] => [[]]
  | c :: rest =>
      if c = sep then [] :: splitOnChar sep rest
      else
        match splitOnChar sep rest with
        | [] => [[c]]
        | p :: ps => (c :: p) :: ps

/-- Digit-list to number accumulator for `parseI64`. -/
def digitsToNat (ds : List Char) : Nat :=
  ds.foldl (fun a c => a * 10 + (c.toNat - 48)) 0

/-- Rust's `str::parse::<i64>` (`i64::from_str`): an optional `+` or `-` sign
followed by one or more ASCII digits, value within the `i64` range; anything
else is a `ParseIntError`, modelled as `none`. -/
def parseI64 (s : List Char) : Option Int :=
  let signAndDigits : Int × List Char :=
    match s with
    | '+' :: rest => (1, rest)
    | '-' :: rest => (-1, rest)
    | l => (1, l)
  let sgn := signAndDigits.1
  let ds := signAndDigits.2
  if ds = [] then none
  else if ds.all Char.isDigit then
    let v : Int := sgn * (digitsToNat ds : Int)
    if -(2 ^ 63) ≤ v ∧ v < 2 ^ 63 then some v else none
  else none

/-- One iteration of the `for channel in input.split(",")` loop body of
`parse_channel_retention` (`main.rs` lines 110–123): split the entry on `:`,
take part 0 as the name and part 1 as the duration string (missing part 1 is
`InvalidChannelConfigError`), pop the final character as the unit suffix
(absent suffix is `InvalidDurationError`), and parse the remaining magnitude
with `str::parse::<i64>` (failure propagates the integer-parse error); suffix
`d` means days, `w` weeks, anything else `InvalidDurationError`. -/
def parseEntry (entry : List Char) : Except SweepError (List Char × Int) :=
  let parts := splitOnChar ':' entry
  match parts.get? 0 with
  | none => .error .invalidChannelConfig
  | some channel_name =>
    match parts.get? 1 with
    | none => .error .invalidChannelConfig
    | some channel_duration_str =>
      match channel_duration_str.getLast? with
      | none => .error .invalidDuration
      | some suffix =>
        let magnitude := channel_duration_str.dropLast
        match suffix with
        | 'd' =>
          match parseI64 magnitude with
          | some n => .ok (channel_name, durationDays n)
          | none => .error .parseIntError
        | 'w' =>
          match parseI64 magnitude with
          | some n => .ok (channel_name, durationWeeks n)
          | none => .error .parseIntError
        | _ => .error .invalidDuration

/-- The retention map: channel name to maximum age.  `std::collections::HashMap`
is modelled extensionally as a lookup function; `insert` overwrites. -/
def RetentionMap : Type := List Char → Option Int

/-- `HashMap::insert`: later insertions overwrite earlier ones at the same key. -/
def mapInsert (m : RetentionMap) (k : List Char) (v : Int) : RetentionMap :=
  fun k' => if k' = k then some v else m k'

/-- The empty map (`HashMap::new`). -/
def mapEmpty : RetentionMap := fun _ => none

/-- The `for channel in input.split(",")` loop of `parse_channel_retention`:
parse each entry in order, inserting into the accumulated map; the first
error aborts the whole parse (the `?` operators inside the loop body make
the function return early). -/
def parseEntries (acc : RetentionMap) :
    List (List Char) → Except SweepError RetentionMap
  | [] => .ok acc
  | e :: es =>
      match parseEntry e with
      | .error err => .error err
      | .ok p => parseEntries (mapInsert acc p.1 p.2) es

/-- `parse_channel_retention` from `main.rs` lines 107–127: split the input on
`,` and run the entry loop starting from the empty map. -/
def parse_channel_retention (input : List Char) : Except SweepError RetentionMap :=
  parseEntries mapEmpty (splitOnChar ',' input)

/-! ### History service and paginator (`process_channel`, lines 74–91) -/

/-- The History Service's `listMessages(channelId, limit, beforeId?)` call, for
a channel whose full history is `history`, held newest-first (strictly
decreasing ids): return the newest `limit` messages, restricted to ids strictly
below `before` when a cursor is given.  This is the collaborator contract the
spec assumes (`GET ?limit=100` / `?limit=100&before=id`). -/
def get_messages (history : List Message) (limit : Nat) (before : Option Nat) :
    List Message :=
  (match before with
   | none => history
   | some b => history.filter (fun m => m.id < b)).take limit

/-- The `while let Some(before_msg) = oldest_msg` loop of `process_channel`
(lines 82–91), started with cursor `cursorId` (the id of the last message of
the previous batch).  Returns the concatenation of all fetched batches and the
number of `get_messages` calls issued by the loop.  `fuel` bounds the
iteration count for Lean's termination checker; `history.length` is always
enough fuel (each non-empty batch strictly shrinks the remaining suffix), and
running out of fuel is modelled as stopping with zero calls. -/
def paginateLoop (history : List Message) : Nat → Nat → List Message × Nat
  | 0, _ => ([], 0)
  | fuel + 1, cursorId =>
      let batch := get_messages history 100 (some cursorId)
      match batch.getLast? with
      | none => (batch, 1)
      | some m =>
          let r := paginateLoop history fuel m.id
          (batch ++ r.1, r.2 + 1)

/-- The full history traversal of `process_channel` (lines 74–91): fetch the
first batch with `?limit=100` and no cursor; if non-empty, loop with the last
message of each batch as the next cursor until a batch comes back empty.
Returns all messages visited (in visit order) and the total number of
`get_messages` calls. -/
def paginate (history : List Message) : List Message × Nat :=
  let first_batch := get_messages history 100 none
  match first_batch.getLast? with
  | none => (first_batch, 1)
  | some m =>
      let r := paginateLoop history history.length m.id
      (first_batch ++ r.1, r.2 + 1)

/-! ### Deletion executor (`process_channel`, lines 100–102) -/

/-- The deletion loop `for msg_id in message_ids_to_delete { client.delete_message(..)? }`:
issue deletions one at a time; the `?` aborts on the first failure, of any
kind, surfacing that error.  `delete` is the collaborator's
`deleteMessage(channelId, id)`; the function returns the list of ids for which
a delete call was actually issued, paired with the surfaced error, if any. -/
def runDeletions (delete : Nat → Except SweepError Unit) :
    List Nat → List Nat × Option SweepError
  | [] => ([], none)
  | id :: rest =>
      match delete id with
      | .ok _ =>
          let r := runDeletions delete rest
          (id :: r.1, r.2)
      | .error e => ([id], some e)

/-! ### Sweep coordinator (`main` lines 29–43, `process_guild` lines 46–66) -/

/-- `get_guilds` of the Directory Service
(`listGuilds(afterId, pageSize)`), for a directory whose guilds are the list
`allGuilds` in ascending id order: the first `pageSize` guilds with id
strictly after `afterId`. -/
def get_guilds (allGuilds : List Guild) (afterId : Nat) (pageSize : Nat) :
    List Guild :=
  (allGuilds.filter (fun g => afterId < g.id)).take pageSize

/-- `process_guild` (lines 46–66) over explicit collaborator results:
`channelsResult` is what `client.get_channels(guild.id)` returned (the `?` on
line 51 propagates its error); for each returned channel, a missing retention
rule means `continue` (the channel is skipped), and a present rule runs
`process_channel`, whose error is only logged (`if let Err`) — the loop always
reaches every channel.  The result records, per attempted channel, the outcome
of its `process_channel` call. -/
def process_guild (channelsResult : Except SweepError (List Channel))
    (channel_retention : RetentionMap)
    (runChannel : Channel → Int → Except SweepError Unit) :
    Except SweepError (List (Channel × Except SweepError Unit)) :=
  match channelsResult with
  | .error e => .error e
  | .ok channels =>
      .ok (channels.filterMap (fun c =>
        match channel_retention c.name with
        | none => none
        | some max_age => some (c, runChannel c max_age)))

/-- The body of `main`'s `loop` (lines 29–43), one sweep cycle:
`client.get_guilds(&GuildPagination::After(GuildId(0)), 1)` — note the literal
page size 1 and `After(0)` cursor — with its error propagated by `?` (aborting
`main` itself); on success, each returned guild is processed and a
`process_guild` error is only logged.  `listGuilds` is the transport-level
call; the cycle log records each processed guild with its outcome. -/
def runCycle (listGuilds : Nat → Nat → Except SweepError (List Guild))
    (perGuild : Guild → Except SweepError (List (Channel × Except SweepError Unit))) :
    Except SweepError (List (Guild × Except SweepError (List (Channel × Except SweepError Unit)))) :=
  match listGuilds 0 1 with
  | .error e => .error e
  | .ok guilds => .ok (guilds.map (fun g => (g, perGuild g)))

/-- A whole sweep cycle assembled as in `main.rs`: guilds from the directory,
then `process_guild` per guild with the shared retention map. -/
def sweepCycle (listGuilds : Nat → Nat → Except SweepError (List Guild))
    (listChannels : Guild → Except SweepError (List Channel))
    (channel_retention : RetentionMap)
    (runChannel : Channel → Int → Except SweepError Unit) :
    Except SweepError (List (Guild × Except SweepError (List (Channel × Except SweepError Unit)))) :=
  runCycle listGuilds (fun g => process_guild (listChannels g) channel_retention runChannel)

/-- `main`'s unbounded `loop`, run over a finite prefix of cycles whose
collaborator behaviour for cycle `i` is `cycles[i]` (the `listGuilds` function
and the per-guild processor for that cycle).  A `runCycle` error is the `?` on
line 32 firing: `main` returns `Err`, the process exits, and no further cycle
runs — modelled by the loop returning that error with the remaining cycles
undone.  On success the cycle's log is recorded and the loop continues. -/
def mainLoop :
    List ((Nat → Nat → Except SweepError (List Guild)) ×
      (Guild → Except SweepError (List (Channel × Except SweepError Unit)))) →
    Except SweepError (List (List (Guild × Except SweepError (List (Channel × Except SweepError Unit)))))
  | [] => .ok []
  | (svc, pg) :: rest =>
      match runCycle svc pg with
      | .error e => .error e
      | .ok log =>
          match mainLoop rest with
          | .error e => .error e
          | .ok logs => .ok (log :: logs)

/-! ### Scheduler timing (`main` lines 27–43) -/

/-- The sweep interval: `Duration::minutes(1).to_std()` (line 27), in seconds. -/
def interval : Nat := 60

/-- Start instant (in seconds) of the `n`-th sweep in `main`'s
`loop { sweep; thread::sleep(interval) }`, when sweep `k` takes `sweepDur k`
seconds: the first sweep starts immediately at time 0, and each next sweep
starts when the previous sweep has finished *and* the subsequent
`thread::sleep(interval)` has elapsed. -/
def tickStart (sweepDur : Nat → Nat) : Nat → Nat
  | 0 => 0
  | n + 1 => tickStart sweepDur n + sweepDur n + interval

/-- Modelled from the spec (§4.6), for comparison with `tickStart`: ticks at a
fixed interval measured from the *start* of the previous tick, with a sweep
longer than the interval causing the next sweep to start back-to-back with no
idle gap. -/
def specTickStart (sweepDur : Nat → Nat) : Nat → Nat
  | 0 => 0
  | n + 1 => specTickStart sweepDur n + max interval (sweepDur n)

/-- A channel history as the History Service stores it: newest first, i.e.
message ids strictly decreasing along the list. -/
def SortedDesc (l : List Message) : Prop :=
  l.Pairwise (fun a b => b.id < a.id)

instance : DecidablePred SortedDesc := fun l =>
  List.instDecidablePairwise l

/-- The duration assigned to channel `k` by the *last* entry of `es` that
parses to name `k` (`none` when no entry does) — the reference semantics for
`HashMap` overwrite ("last entry wins"). -/
def lastValueFor (k : List Char) (es : List (List Char)) : Option Int :=
  (es.filterMap (fun e =>
    match parseEntry e with
    | .ok p => if p.1 = k then some p.2 else none
    | .error _ => none)).getLast?

/-! ## Theorems -/

/-- Claim C7: for every message `m`, threshold `T`, and instant `now`, the
message filter includes `m` iff `now - m.timestamp > T` (strict inequality);
a message whose age is exactly `T` is retained, not deleted. -/
theorem filter_stale_iff :
    (∀ (msgs : List Message) (T now : Int) (i : Nat),
        i ∈ filter_messages msgs T now ↔
          ∃ m ∈ msgs, m.id = i ∧ T < now - m.timestamp) ∧
    (∀ (m : Message) (T now : Int),
        now - m.timestamp = T → m.id ∉ filter_messages [m] T now) := by
  constructor
  · intro msgs T now i
    simp only [filter_messages, List.mem_map, List.mem_filter,
      decide_eq_true_eq]
    constructor
    · rintro ⟨m, ⟨hm, hage⟩, hid⟩
      exact ⟨m, hm, hid, hage⟩
    · rintro ⟨m, hm, hid, hage⟩
      exact ⟨m, ⟨hm, hage⟩, hid⟩
  · intro m T now h
    simp only [filter_messages, List.mem_map, List.mem_filter,
      decide_eq_true_eq, List.mem_singleton]
    rintro ⟨m', ⟨rfl, hage⟩, _⟩
    omega

/-- Witness for C7: a message aged exactly at the threshold is retained. -/
theorem filter_stale_iff_witness :
    (⟨5, 10, false⟩ : Message).id ∉ filter_messages [⟨5, 10, false⟩] 7 17 :=
  filter_stale_iff.2 ⟨5, 10, false⟩ 7 17 (by decide)

/-- Counterexample for C5: the engine does not exempt pinned messages — a
pinned message older than the threshold is listed for deletion (and the
deletion executor then issues its delete call); no code path of `main.rs`
reads the `pinned` field or any pinned-exemption flag. -/
theorem pinned_message_deleted :
    filter_messages [⟨1, 0, true⟩] 10 100 = [1] ∧
    runDeletions (fun _ => .ok ()) (filter_messages [⟨1, 0, true⟩] 10 100) =
      ([1], none) := by
  constructor <;> rfl

/-- Claim C5 (amended): there is no pinned-message exemption: the filter is
entirely insensitive to the `pinned` field (messages are never exempt for
being pinned), so the default "not exempt" behaviour is the only behaviour. -/
theorem filter_messages_ignores_pinned :
    ∀ (msgs : List Message) (T now : Int) (b : Bool),
      filter_messages
          (msgs.map (fun m => { m with pinned := b })) T now =
        filter_messages msgs T now := by
  intro msgs T now b
  unfold filter_messages
  rw [List.filter_map, List.map_map]
  rfl

/-- Counterexample for C3: a `NotFound` deletion failure is *not* treated as a
successful no-op: the `?` on the delete call surfaces it as the channel's
error and aborts the remaining deletions (here id 2 is never attempted);
a second sweep over an unchanged message set therefore re-issues delete calls
and fails, instead of producing zero side effects with all-success. -/
theorem notFound_aborts_deletions :
    runDeletions (fun _ => .error .notFound) [1, 2] = ([1], some .notFound) ∧
    runDeletions (fun _ => .error .notFound) [1, 2] ≠ ([1, 2], none) := by
  constructor
  · rfl
  · intro h
    have h1 : runDeletions (fun _ => .error .notFound) [1, 2] =
        ([1], some .notFound) := rfl
    rw [h1] at h
    exact absurd h (by decide)

/-- Claim C3 (amended): the deletion loop treats every failure alike,
`NotFound` included: when all delete calls succeed every id is deleted in
order with no error, and the first failing call (of any kind, `NotFound`
included) aborts the remaining deletions and surfaces that error as the
channel's failure. -/
theorem runDeletions_spec :
    (∀ (delete : Nat → Except SweepError Unit) (ids : List Nat),
        (∀ i ∈ ids, delete i = .ok ()) →
          runDeletions delete ids = (ids, none)) ∧
    (∀ (delete : Nat → Except SweepError Unit) (i : Nat) (ids : List Nat)
        (e : SweepError),
        delete i = .error e →
          runDeletions delete (i :: ids) = ([i], some e)) := by
  constructor
  · intro delete ids hok
    induction ids with
    | nil => rfl
    | cons i rest ih =>
        have hi : delete i = .ok () := hok i (List.mem_cons_self i rest)
        have hr := ih (fun j hj => hok j (List.mem_cons_of_mem i hj))
        simp [runDeletions, hi, hr]
  · intro delete i ids e he
    simp [runDeletions, he]

/-- Witness for C3's amended theorem: a `NotFound` failure on the first id
aborts with that error. -/
theorem runDeletions_spec_witness :
    runDeletions (fun _ => .error .notFound) [7, 8] = ([7], some .notFound) :=
  runDeletions_spec.2 (fun _ => .error .notFound) 7 [8] .notFound rfl

/-- Counterexample for C10: with every sweep taking 30 seconds (shorter than
the interval), the code's second tick starts at 90 s — 60 s after the *end* of
the first sweep — whereas ticks at a fixed 60 s interval measured from the
start of the previous tick would start it at 60 s. -/
theorem schedule_interval_cex :
    tickStart (fun _ => 30) 1 = 90 ∧ specTickStart (fun _ => 30) 1 = 60 ∧
      tickStart (fun _ => 30) 1 ≠ specTickStart (fun _ => 30) 1 := by
  refine ⟨rfl, rfl, ?_⟩
  decide

/-- Claim C10 (amended): the first sweep starts immediately on process start
with no initial delay, and every subsequent sweep starts a fixed 60 seconds
after the *end* of the previous sweep (the sleep runs after the sweep), so
consecutive sweeps are always separated by a full 60-second idle gap — a sweep
longer than the interval delays the next tick rather than running
back-to-back — and sweeps never overlap. -/
theorem schedule_spec :
    (∀ sweepDur : Nat → Nat, tickStart sweepDur 0 = 0) ∧
    (∀ (sweepDur : Nat → Nat) (n : Nat),
        tickStart sweepDur (n + 1) = tickStart sweepDur n + sweepDur n + 60) ∧
    (∀ (sweepDur : Nat → Nat) (n : Nat),
        tickStart sweepDur (n + 1) - (tickStart sweepDur n + sweepDur n) =
          60) ∧
    (∀ (sweepDur : Nat → Nat) (n : Nat),
        tickStart sweepDur n + sweepDur n ≤ tickStart sweepDur (n + 1)) := by
  refine ⟨fun _ => rfl, fun d n => rfl, fun d n => ?_, fun d n => ?_⟩
  · show tickStart d n + d n + 60 - (tickStart d n + d n) = 60
    omega
  · show tickStart d n + d n ≤ tickStart d n + d n + 60
    omega

/-- Counterexample for C1: a guild-enumeration failure at the top of a cycle
is *fatal for the process*: the `?` on the `get_guilds` call makes `main`
return the error, so the loop ends with that error and the next scheduled
cycle (here one with a perfectly healthy directory) never runs — the process
exits due to a runtime error, contrary to the claim, which requires the run to
end in `.ok` with the second cycle's log recorded. -/
theorem enumeration_failure_exits_process :
    mainLoop
        [(fun _ _ => .error .transport, fun _ => .ok []),
         (fun _ _ => .ok [], fun _ => .ok [])] =
      .error .transport := rfl

/-- Claim C1 (amended): a failure enumerating guilds at the top of a sweep
cycle aborts that cycle *and* exits the process: `main` returns the error,
so no later scheduled cycle runs, whatever those cycles would have done —
the process can exit due to a runtime error, not only due to a startup
configuration error or external termination. -/
theorem guild_enumeration_failure_propagates :
    ∀ (svc : Nat → Nat → Except SweepError (List Guild))
      (pg : Guild → Except SweepError (List (Channel × Except SweepError Unit)))
      (rest : List ((Nat → Nat → Except SweepError (List Guild)) ×
        (Guild → Except SweepError (List (Channel × Except SweepError Unit)))))
      (e : SweepError),
      svc 0 1 = .error e → mainLoop ((svc, pg) :: rest) = .error e := by
  intro svc pg rest e h
  simp [mainLoop, runCycle, h]

/-- Witness for C1's amended theorem: a transport failure on the first cycle's
guild enumeration ends the whole loop with that error. -/
theorem guild_enumeration_failure_propagates_witness :
    mainLoop
        [(fun _ _ => .error .rateLimited, fun _ => .ok []),
         (fun _ _ => .ok [], fun _ => .ok [])] =
      .error .rateLimited :=
  guild_enumeration_failure_propagates
    (fun _ _ => .error .rateLimited) (fun _ => .ok [])
    [(fun _ _ => .ok [], fun _ => .ok [])] .rateLimited rfl

/-- Claim C2: each cycle requests the guild listing with cursor `After 0` and
page size 1; with a healthy directory holding `allGuilds`, the cycle's log
covers exactly `get_guilds allGuilds 0 1`, which is the first guild (id > 0)
and nothing more, so at most one guild is processed per cycle no matter how
many guilds exist, and no further guild page is ever fetched. -/
theorem one_guild_per_cycle :
    ∀ (allGuilds : List Guild)
      (pg : Guild → Except SweepError (List (Channel × Except SweepError Unit))),
      runCycle (fun a l => .ok (get_guilds allGuilds a l)) pg =
          .ok ((get_guilds allGuilds 0 1).map (fun g => (g, pg g))) ∧
      get_guilds allGuilds 0 1 =
          (allGuilds.filter (fun g => 0 < g.id)).take 1 ∧
      (∀ log,
          runCycle (fun a l => .ok (get_guilds allGuilds a l)) pg = .ok log →
            log.length ≤ 1) := by
  intro allGuilds pg
  refine ⟨rfl, rfl, ?_⟩
  intro log h
  have h2 : log = (get_guilds allGuilds 0 1).map (fun g => (g, pg g)) := by
    have h1 :
        runCycle (fun a l => .ok (get_guilds allGuilds a l)) pg =
          .ok ((get_guilds allGuilds 0 1).map (fun g => (g, pg g))) := rfl
    rw [h1] at h
    exact (Except.ok.inj h).symm
  rw [h2, List.length_map]
  exact List.length_take_le 1 _

/-- Witness for C2: with two guilds in the directory only the first is in the
cycle's log. -/
theorem one_guild_per_cycle_witness :
    runCycle
        (fun a l => .ok (get_guilds [⟨1, ['A']⟩, ⟨2, ['B']⟩] a l))
        (fun _ => .ok []) =
      .ok [((⟨1, ['A']⟩ : Guild),
        (Except.ok [] :
          Except SweepError (List (Channel × Except SweepError Unit))))] ∧
    ([((⟨1, ['A']⟩ : Guild),
        (Except.ok [] :
          Except SweepError (List (Channel × Except SweepError Unit))))]).length ≤
      1 := by
  have h := one_guild_per_cycle [⟨1, ['A']⟩, ⟨2, ['B']⟩]
    (fun _ => (Except.ok [] :
      Except SweepError (List (Channel × Except SweepError Unit))))
  exact ⟨h.1, h.2.2 _ h.1⟩

/-- Claim C4: failure isolation within a cycle.  Once guild enumeration
succeeds, the cycle always completes with a log; every guild of the page gets
its own entry, whatever happens to the other guilds; a guild whose channel
enumeration fails is recorded as failed (skipped) without stopping the cycle;
and every channel holding a retention rule is attempted with its own outcome,
whatever the outcomes (including failures) of the other channels in its guild
or of other guilds. -/
theorem failure_isolation :
    ∀ (listGuilds : Nat → Nat → Except SweepError (List Guild))
      (listChannels : Guild → Except SweepError (List Channel))
      (ret : RetentionMap)
      (runChannel : Channel → Int → Except SweepError Unit)
      (gs : List Guild),
      listGuilds 0 1 = .ok gs →
      ∃ log,
        sweepCycle listGuilds listChannels ret runChannel = .ok log ∧
        (∀ g ∈ gs, (g, process_guild (listChannels g) ret runChannel) ∈ log) ∧
        (∀ g ∈ gs, ∀ e, listChannels g = .error e → (g, .error e) ∈ log) ∧
        (∀ g ∈ gs, ∀ chans, listChannels g = .ok chans →
          ∀ c ∈ chans, ∀ a, ret c.name = some a →
            ∃ glog, (g, .ok glog) ∈ log ∧ (c, runChannel c a) ∈ glog) := by
  intro listGuilds listChannels ret runChannel gs h
  refine ⟨gs.map (fun g => (g, process_guild (listChannels g) ret runChannel)),
    ?_, ?_, ?_, ?_⟩
  · simp [sweepCycle, runCycle, h]
  · intro g hg
    exact List.mem_map_of_mem _ hg
  · intro g hg e he
    have : process_guild (listChannels g) ret runChannel = .error e := by
      rw [he]
      rfl
    rw [← this]
    exact List.mem_map_of_mem _ hg
  · intro g hg chans hchans c hc a ha
    refine ⟨chans.filterMap (fun c' =>
      match ret c'.name with
      | none => none
      | some max_age => some (c', runChannel c' max_age)), ?_, ?_⟩
    · have : process_guild (listChannels g) ret runChannel =
          .ok (chans.filterMap (fun c' =>
            match ret c'.name with
            | none => none
            | some max_age => some (c', runChannel c' max_age))) := by
        rw [hchans]
        rfl
      rw [← this]
      exact List.mem_map_of_mem _ hg
    · rw [List.mem_filterMap]
      exact ⟨c, hc, by rw [ha]⟩

/-- Witness for C4: guild A's channel enumeration fails with a transport
error, yet guild B is still processed; inside guild B the first ruled channel
fails, yet the second ruled channel is still attempted (and the unruled
channel is skipped). -/
theorem failure_isolation_witness :
    ∃ log,
      sweepCycle
          (fun _ _ => .ok [⟨1, ['A']⟩, ⟨2, ['B']⟩])
          (fun g => if g.id = 1 then .error .transport
            else .ok [⟨10, ['g']⟩, ⟨11, ['x']⟩, ⟨12, ['r']⟩])
          (mapInsert (mapInsert mapEmpty ['g'] 5) ['r'] 7)
          (fun c _ => if c.id = 10 then .error .forbidden else .ok ()) =
        .ok log ∧
      ((⟨1, ['A']⟩ : Guild),
        (Except.error SweepError.transport :
          Except SweepError (List (Channel × Except SweepError Unit)))) ∈ log ∧
      ∃ glog,
        ((⟨2, ['B']⟩ : Guild),
          (Except.ok glog :
            Except SweepError (List (Channel × Except SweepError Unit)))) ∈ log ∧
        ((⟨12, ['r']⟩ : Channel),
          (Except.ok () : Except SweepError Unit)) ∈ glog := by
  obtain ⟨log, hlog, _, herr, hok⟩ :=
    failure_isolation
      (fun _ _ => .ok [⟨1, ['A']⟩, ⟨2, ['B']⟩])
      (fun g => if g.id = 1 then .error .transport
        else .ok [⟨10, ['g']⟩, ⟨11, ['x']⟩, ⟨12, ['r']⟩])
      (mapInsert (mapInsert mapEmpty ['g'] 5) ['r'] 7)
      (fun c _ => if c.id = 10 then .error .forbidden else .ok ())
      [⟨1, ['A']⟩, ⟨2, ['B']⟩] rfl
  refine ⟨log, hlog, herr ⟨1, ['A']⟩ (by simp) .transport rfl, ?_⟩
  obtain ⟨glog, hg, hc⟩ :=
    hok ⟨2, ['B']⟩ (by simp) [⟨10, ['g']⟩, ⟨11, ['x']⟩, ⟨12, ['r']⟩] rfl
      ⟨12, ['r']⟩ (by simp) 7 rfl
  exact ⟨glog, hg, hc⟩

/-! ### Parser lemmas -/

theorem splitOnChar_of_not_mem (sep : Char) (l : List Char) (h : sep ∉ l) :
    splitOnChar sep l = [l] := by
  induction l with
  | nil => rfl
  | cons c rest ih =>
      have hc : ¬(c = sep) := fun hh => h (hh ▸ List.mem_cons_self c rest)
      have hr := ih (fun hm => h (List.mem_cons_of_mem c hm))
      simp [splitOnChar, hc, hr]

theorem splitOnChar_append (sep : Char) (a b : List Char) (h : sep ∉ a) :
    splitOnChar sep (a ++ sep :: b) = a :: splitOnChar sep b := by
  induction a with
  | nil => simp [splitOnChar]
  | cons c a ih =>
      have hc : ¬(c = sep) := fun hh => h (hh ▸ List.mem_cons_self c a)
      have hr := ih (fun hm => h (List.mem_cons_of_mem c hm))
      simp only [List.cons_append, splitOnChar, if_neg hc, List.append_eq, hr]

theorem parseEntries_lookup :
    ∀ (es : List (List Char)) (acc m : RetentionMap) (k : List Char),
      parseEntries acc es = .ok m →
      m k = (match lastValueFor k es with
             | some v => some v
             | none => acc k) := by
  intro es
  induction es with
  | nil =>
      intro acc m k h
      have hacc : acc = m := Except.ok.inj h
      simp [lastValueFor, ← hacc]
  | cons e es ih =>
      intro acc m k h
      simp only [parseEntries] at h
      cases hpe : parseEntry e with
      | error err => rw [hpe] at h; exact Except.noConfusion h
      | ok p =>
          rw [hpe] at h
          have hm := ih (mapInsert acc p.1 p.2) m k h
          by_cases hk : p.1 = k
          · simp only [lastValueFor, List.filterMap_cons, hpe, if_pos hk]
            cases hL : (es.filterMap (fun e =>
                match parseEntry e with
                | .ok p => if p.1 = k then some p.2 else none
                | .error _ => none)) with
            | nil =>
                have hnone : lastValueFor k es = none := by
                  simp [lastValueFor, hL]
                rw [hnone] at hm
                simp only [List.getLast?_singleton]
                rw [hm, mapInsert, if_pos hk.symm]
            | cons b l' =>
                have hsome : lastValueFor k es = (b :: l').getLast? := by
                  simp [lastValueFor, hL]
                rw [List.getLast?_cons_cons, ← hsome]
                cases hv : lastValueFor k es with
                | none =>
                    exact absurd (hsome ▸ hv)
                      (by simp [List.getLast?_eq_none_iff])
                | some v => rw [hv] at hm; exact hm
          · simp only [lastValueFor, List.filterMap_cons, hpe, if_neg hk]
            have : mapInsert acc p.1 p.2 k = acc k := by
              rw [mapInsert, if_neg (fun hh => hk hh.symm)]
            rw [this] at hm
            exact hm

/-- Counterexample for C8: for the entry `a:d` the magnitude (the empty
string) does not parse as an integer, and the parser fails with the
propagated integer-parse error (`str::parse::<i64>`'s `ParseIntError`), not
with `InvalidDuration`. -/
theorem magnitude_error_is_parse_int_error :
    parse_channel_retention "a:d".data = .error .parseIntError ∧
    SweepError.parseIntError ≠ SweepError.invalidDuration := by
  exact ⟨rfl, by decide⟩

/-- Claim C8 (amended): the parser fails with `InvalidChannelConfig` for every
entry lacking a `:` separator, and with `InvalidDuration` for every entry
whose duration suffix is absent or is not `d` or `w`; but an entry whose
magnitude does not parse as an integer fails with the propagated
integer-parse error (`ParseIntError`), not with `InvalidDuration`.  A
single-entry input fails with its entry's error. -/
theorem parse_errors_spec :
    (∀ entry : List Char, ':' ∉ entry →
        parseEntry entry = .error .invalidChannelConfig) ∧
    (∀ name : List Char, ':' ∉ name →
        parseEntry (name ++ [':']) = .error .invalidDuration) ∧
    (∀ name dur : List Char, ':' ∉ name → ':' ∉ dur →
        ∀ c, dur.getLast? = some c → c ≠ 'd' → c ≠ 'w' →
          parseEntry (name ++ ':' :: dur) = .error .invalidDuration) ∧
    (∀ name dur : List Char, ':' ∉ name → ':' ∉ dur →
        (dur.getLast? = some 'd' ∨ dur.getLast? = some 'w') →
        parseI64 dur.dropLast = none →
          parseEntry (name ++ ':' :: dur) = .error .parseIntError) ∧
    (∀ entry : List Char, ',' ∉ entry → ∀ e, parseEntry entry = .error e →
        parse_channel_retention entry = .error e) := by
  refine ⟨?_, ?_, ?_, ?_, ?_⟩
  · intro entry h
    unfold parseEntry
    rw [splitOnChar_of_not_mem ':' entry h]
    rfl
  · intro name hn
    unfold parseEntry
    rw [splitOnChar_append ':' name [] hn]
    rfl
  · intro name dur hn hd c hlast hcd hcw
    unfold parseEntry
    rw [splitOnChar_append ':' name dur hn, splitOnChar_of_not_mem ':' dur hd]
    simp only [List.get?]
    rw [hlast]
    split <;> simp_all
  · intro name dur hn hd hlast hp
    unfold parseEntry
    rw [splitOnChar_append ':' name dur hn, splitOnChar_of_not_mem ':' dur hd]
    simp only [List.get?]
    rcases hlast with h | h <;> rw [h] <;> simp only [hp]
  · intro entry hc e he
    unfold parse_channel_retention
    rw [splitOnChar_of_not_mem ',' entry hc]
    simp [parseEntries, he]

/-- Witness for C8's amended theorem: `bad` has no colon and fails with
`InvalidChannelConfig`; `a:5x` has an unrecognized suffix and fails with
`InvalidDuration`; `a:d` has a non-integer magnitude and fails with the
integer-parse error — in each case both for the entry and for the whole
single-entry input. -/
theorem parse_errors_spec_witness :
    parse_channel_retention "bad".data = .error .invalidChannelConfig ∧
    parse_channel_retention "a:5x".data = .error .invalidDuration ∧
    parse_channel_retention "a:d".data = .error .parseIntError := by
  refine ⟨?_, ?_, ?_⟩
  · exact parse_errors_spec.2.2.2.2 "bad".data (by decide) _
      (parse_errors_spec.1 "bad".data (by decide))
  · exact parse_errors_spec.2.2.2.2 "a:5x".data (by decide) _
      (parse_errors_spec.2.2.1 ['a'] ['5', 'x'] (by decide) (by decide) 'x'
        rfl (by decide) (by decide))
  · exact parse_errors_spec.2.2.2.2 "a:d".data (by decide) _
      (parse_errors_spec.2.2.2.1 ['a'] ['d'] (by decide) (by decide)
        (Or.inl rfl) rfl)

/-- Claim C9: on well-formed input the parser maps each channel name to its
duration, `d` meaning days and `w` weeks — `general:7d,logs:2w` yields
`general = 7` days and `logs = 2` weeks `= 14` days — and when the same name
appears in several entries the *last* entry wins (`HashMap` overwrite):
in general the resulting map agrees everywhere with the last successfully
parsed entry for that name. -/
theorem parse_retention_spec :
    (∃ m, parse_channel_retention "general:7d,logs:2w".data = .ok m ∧
        m "general".data = some (durationDays 7) ∧
        m "logs".data = some (durationWeeks 2) ∧
        durationWeeks 2 = durationDays 14) ∧
    (∃ m, parse_channel_retention "a:1d,a:2d".data = .ok m ∧
        m "a".data = some (durationDays 2)) ∧
    (∀ (input : List Char) (m : RetentionMap) (k : List Char),
        parse_channel_retention input = .ok m →
          m k = lastValueFor k (splitOnChar ',' input)) := by
  refine ⟨⟨_, rfl, by decide, by decide, by decide⟩,
    ⟨_, rfl, by decide⟩, ?_⟩
  intro input m k h
  have hm := parseEntries_lookup (splitOnChar ',' input) mapEmpty m k h
  rw [hm]
  cases lastValueFor k (splitOnChar ',' input) with
  | none => rfl
  | some v => rfl

/-- Witness for C9: on the duplicate-name input `a:1d,a:2d`, the map's value
at `a` is the last matching entry's duration, 2 days. -/
theorem parse_retention_spec_witness :
    mapInsert (mapInsert mapEmpty ['a'] (durationDays 1)) ['a']
        (durationDays 2) ['a'] =
      lastValueFor ['a'] (splitOnChar ',' "a:1d,a:2d".data) :=
  parse_retention_spec.2.2 "a:1d,a:2d".data _ ['a'] rfl

/-! ### Pagination lemmas -/

theorem filter_lt_of_sortedDesc :
    ∀ (pre : List Message) (m : Message) (suf : List Message),
      SortedDesc (pre ++ m :: suf) →
      (pre ++ m :: suf).filter (fun x => x.id < m.id) = suf := by
  intro pre
  induction pre with
  | nil =>
      intro m suf hs
      simp only [SortedDesc, List.nil_append, List.pairwise_cons] at hs
      simp only [List.nil_append, List.filter_cons, decide_eq_true_eq,
        lt_irrefl, if_false]
      rw [List.filter_eq_self]
      intro a ha
      exact decide_eq_true (hs.1 a ha)
  | cons a pre ih =>
      intro m suf hs
      simp only [SortedDesc, List.cons_append, List.pairwise_cons] at hs
      have hma : m.id < a.id := hs.1 m (by simp)
      simp only [List.cons_append, List.filter_cons, decide_eq_true_eq]
      rw [if_neg (by omega)]
      exact ih m suf hs.2

theorem paginateLoop_spec :
    ∀ (fuel : Nat) (pre : List Message) (m : Message) (suf : List Message),
      SortedDesc (pre ++ m :: suf) → suf.length < fuel →
      paginateLoop (pre ++ m :: suf) fuel m.id =
        (suf, (suf.length + 99) / 100 + 1) := by
  intro fuel
  induction fuel with
  | zero => intro pre m suf _ hf; omega
  | succ fuel ih =>
      intro pre m suf hs hf
      have hbatch : get_messages (pre ++ m :: suf) 100 (some m.id) =
          suf.take 100 := by
        show ((pre ++ m :: suf).filter (fun x => x.id < m.id)).take 100 = _
        rw [filter_lt_of_sortedDesc pre m suf hs]
      cases hsuf : suf with
      | nil =>
          subst hsuf
          simp only [paginateLoop, hbatch]
          rfl
      | cons s0 srest =>
          have hne : suf ≠ [] := by rw [hsuf]; exact List.cons_ne_nil _ _
          have hbne : suf.take 100 ≠ [] := by
            rw [Ne, List.take_eq_nil_iff]
            push_neg
            exact ⟨by decide, hne⟩
          rcases List.eq_nil_or_concat' (suf.take 100) with hemp | ⟨bl, mb, hb⟩
          · exact absurd hemp hbne
          have hlast : (suf.take 100).getLast? = some mb := by
            rw [hb]; exact List.getLast?_concat bl
          have hdecomp : suf = bl ++ mb :: suf.drop 100 := by
            conv_lhs => rw [← List.take_append_drop 100 suf]
            rw [hb, List.append_assoc, List.singleton_append]
          have heq : pre ++ m :: suf =
              (pre ++ m :: bl) ++ mb :: suf.drop 100 := by
            conv_lhs => rw [hdecomp]
            simp [List.append_assoc]
          have hs2 : SortedDesc ((pre ++ m :: bl) ++ mb :: suf.drop 100) := by
            rw [← heq]; exact hs
          have hlen : suf.length ≥ 1 := by rw [hsuf]; simp
          have hf2 : (suf.drop 100).length < fuel := by
            rw [List.length_drop]; omega
          have ihc := ih (pre ++ m :: bl) mb (suf.drop 100) hs2 hf2
          rw [← heq] at ihc
          rw [← hsuf]
          simp only [paginateLoop, hbatch, hlast, ihc]
          rw [Prod.mk.injEq]
          constructor
          · exact List.take_append_drop 100 suf
          · rw [List.length_drop]
            omega

/-- Claim C6: for every channel history of `N` messages held newest-first by
the History Service (strictly decreasing ids, pages of up to 100 strictly
before the cursor), the paginator of `process_channel` issues exactly
`ceil(N/100) + 1 = (N + 99)/100 + 1` `get_messages` calls — the last one
returning the empty page that is the sole termination condition — and visits
exactly the `N` messages of the history, in strictly decreasing id order with
no duplicates. -/
theorem pagination_spec :
    ∀ history : List Message, SortedDesc history →
      (paginate history).1 = history ∧
      (paginate history).2 = (history.length + 99) / 100 + 1 ∧
      List.Pairwise (fun a b => b.id < a.id) (paginate history).1 := by
  intro history hs
  cases hh : history with
  | nil => subst hh; exact ⟨rfl, by decide, List.Pairwise.nil⟩
  | cons h0 rest =>
      have hne : history ≠ [] := by rw [hh]; exact List.cons_ne_nil _ _
      have hlen : history.length ≥ 1 := by rw [hh]; simp
      have hfirst : get_messages history 100 none = history.take 100 := rfl
      have hbne : history.take 100 ≠ [] := by
        rw [Ne, List.take_eq_nil_iff]
        push_neg
        exact ⟨by decide, hne⟩
      rcases List.eq_nil_or_concat' (history.take 100) with hemp | ⟨bl, mb, hb⟩
      · exact absurd hemp hbne
      have hlast : (history.take 100).getLast? = some mb := by
        rw [hb]; exact List.getLast?_concat bl
      have hdecomp : history = bl ++ mb :: history.drop 100 := by
        conv_lhs => rw [← List.take_append_drop 100 history]
        rw [hb, List.append_assoc, List.singleton_append]
      have hs2 : SortedDesc (bl ++ mb :: history.drop 100) := by
        rw [← hdecomp]; exact hs
      have hf2 : (history.drop 100).length < history.length := by
        rw [List.length_drop]; omega
      have ihc := paginateLoop_spec history.length bl mb (history.drop 100)
        hs2 hf2
      rw [← hdecomp] at ihc
      rw [← hh]
      have hres : paginate history =
          (history.take 100 ++ history.drop 100,
            ((history.drop 100).length + 99) / 100 + 1 + 1) := by
        simp only [paginate, hfirst, hlast, ihc]
      rw [hres]
      refine ⟨List.take_append_drop 100 history, ?_, ?_⟩
      · rw [List.length_drop]
        omega
      · rw [List.take_append_drop 100 history]
        exact hs

/-- Witness for C6: a three-message channel is traversed in two calls
(one full page, one empty page), visiting all three messages in order. -/
theorem pagination_spec_witness :
    (paginate [⟨30, 100, false⟩, ⟨20, 90, false⟩, ⟨10, 80, false⟩]).1 =
        [⟨30, 100, false⟩, ⟨20, 90, false⟩, ⟨10, 80, false⟩] ∧
    (paginate [⟨30, 100, false⟩, ⟨20, 90, false⟩, ⟨10, 80, false⟩]).2 = 2 := by
  have h := pagination_spec
    [⟨30, 100, false⟩, ⟨20, 90, false⟩, ⟨10, 80, false⟩] (by decide)
  exact ⟨h.1, h.2.1⟩

end RetentionBot
